import Mathlib

/-!
Verification of the knowledge-graph construction and retrieval engine of the
`iffc_chatbot_augment_windsurf` repository (modules
`knowledge_augmentation/kg_builder.py`, `knowledge_augmentation/kag_solver.py`
and `knowledge_augmentation/relation_extraction.py`).

Shallow embedding conventions:
* Python dicts holding entity/relation records are records of `Option`-valued
  fields; a missing key is `none`, and subscripting a missing key raises
  `PyError.keyError`, modelled with `Except`.
* The NetworkX `MultiDiGraph` is an insertion-ordered list of
  `(node_id, attribute record)` pairs plus an insertion-ordered list of edges
  `(u, v, key, attribute record)`.  Node attribute dicts are records of
  `Option` fields (`add_relation_to_graph` creates endpoint nodes without a
  `normalized_text` key; `node_link_graph` can create nodes with no
  attributes at all).  Edge attribute dicts are always created complete, so
  they are a plain record.
* Graph-level metadata (`created`, `version`, `description`, the wall-clock
  `timestamp`/`saved_at` strings) is orthogonal to every property verified
  here and is not represented; `confidence` floats are represented as `Rat`.
* Mutating operations are state passing: an operation returns the new graph
  together with `Except PyError result`, and on error it returns the graph as
  mutated up to the point of failure, exactly as a raised Python exception
  leaves the caller's graph object.
-/

/-- A raised Python exception relevant to record access. -/
inductive PyError where
  | keyError (key : String)
deriving DecidableEq, Repr

/-- `d[k]` on an optional field: the value, or a raised `KeyError`. -/
def dictGet {α : Type} (field : Option α) (key : String) : Except PyError α :=
  match field with
  | some v => .ok v
  | none => .error (.keyError key)

/-- Provenance record built by `create_text_source_reference`:
`{pubmed_id, section, timestamp, start_pos?, end_pos?}`. -/
structure SourceRef where
  pubmed_id : String
  sectionName : String  -- the dict key `section` (a Lean keyword)
  start_pos : Option Int
  end_pos : Option Int
  timestamp : String
deriving DecidableEq, Repr

/-- Node attribute dict.  Every field is optional because
`add_relation_to_graph` creates endpoint nodes without `normalized_text`,
and `node_link_graph` can auto-create nodes with an empty attribute dict. -/
structure NodeAttrs where
  type : Option String
  text : Option String
  normalized_text : Option String
  sources : Option (List SourceRef)
deriving DecidableEq, Repr

/-- Edge attribute dict: always created complete by `add_relation_to_graph`. -/
structure EdgeAttrs where
  type : String
  evidence : String
  confidence : Rat
  sources : List SourceRef
deriving DecidableEq, Repr

/-- An edge of the multigraph: endpoints, local ordinal key, attributes. -/
structure Edge where
  u : String
  v : String
  key : Nat
  attrs : EdgeAttrs
deriving DecidableEq, Repr

/-- The NetworkX `MultiDiGraph`, as insertion-ordered node and edge lists. -/
structure KG where
  nodes : List (String × NodeAttrs)
  edges : List Edge
deriving DecidableEq, Repr

/-- `create_knowledge_graph()` (graph-level metadata not represented). -/
def create_knowledge_graph : KG := ⟨[], []⟩

/-- `kg.has_node(i)`. -/
def KG.hasNode (kg : KG) (i : String) : Bool :=
  kg.nodes.any (fun p => p.1 == i)

/-- Attribute dict of node `i`, if the node exists (first occurrence). -/
def KG.lookupNode (kg : KG) (i : String) : Option NodeAttrs :=
  (kg.nodes.find? (fun p => p.1 == i)).map Prod.snd

/-- `kg.number_of_nodes()`. -/
def KG.nodeCount (kg : KG) : Nat := kg.nodes.length

/-- `kg.number_of_edges()`. -/
def KG.edgeCount (kg : KG) : Nat := kg.edges.length

/-- Number of parallel edges between `u` and `v`; also the key NetworkX
assigns to the next edge added between `u` and `v` (keys are never removed
here, so `new_edge_key` is exactly this count). -/
def KG.pairCount (kg : KG) (u v : String) : Nat :=
  (kg.edges.filter (fun e => e.u == u && e.v == v)).length

/-- Edge attributes stored under `(u, v, key)`, if present. -/
def KG.lookupEdge (kg : KG) (u v : String) (key : Nat) : Option EdgeAttrs :=
  (kg.edges.find? (fun e => e.u == u && e.v == v && e.key == key)).map Edge.attrs

/-- An entity record `{type, text, normalized_text, ...}` as fed to
`add_entity_to_graph`; optional fields model possibly-missing dict keys. -/
structure EntityRecord where
  type : Option String
  text : Option String
  normalized_text : Option String
deriving DecidableEq, Repr

/-- `generate_entity_id(entity)` from `relation_extraction.py`:
`f"{entity['type']}:{entity['normalized_text']}"` (the f-string reads
`entity['type']` first, then `entity['normalized_text']`). -/
def generate_entity_id (entity : EntityRecord) : Except PyError String := do
  let t ← dictGet entity.type "type"
  let n ← dictGet entity.normalized_text "normalized_text"
  pure (t ++ ":" ++ n)

/-- `add_entity_to_graph(kg, entity)`: derive the id; if the node is absent,
add it with attributes `type`, `text`, `normalized_text`, `sources=[]`.
All keyword arguments are evaluated before `add_node` runs, so a `KeyError`
on `entity['text']` leaves the graph unchanged. -/
def add_entity_to_graph (kg : KG) (entity : EntityRecord) :
    KG × Except PyError String :=
  match generate_entity_id entity with
  | .error e => (kg, .error e)
  | .ok entity_id =>
    if kg.hasNode entity_id then
      (kg, .ok entity_id)
    else
      match entity.type, entity.text, entity.normalized_text with
      | some t, some tx, some n =>
        ({ kg with
            nodes := kg.nodes ++ [(entity_id, ⟨some t, some tx, some n, some []⟩)] },
         .ok entity_id)
      | none, _, _ => (kg, .error (.keyError "type"))
      | _, none, _ => (kg, .error (.keyError "text"))
      | _, _, none => (kg, .error (.keyError "normalized_text"))

/-- One endpoint sub-dict of a relation record: `{id, type, text}`. -/
structure EndpointRecord where
  id : Option String
  type : Option String
  text : Option String
deriving DecidableEq, Repr

/-- A relation record as fed to `add_relation_to_graph`. -/
structure RelationRecord where
  subject : Option EndpointRecord
  object : Option EndpointRecord
  predicate : Option String
  evidence : Option String
  confidence : Option Rat
deriving DecidableEq, Repr

/-- The `if not kg.has_node(...): kg.add_node(..., type=..., text=...,
sources=[])` block of `add_relation_to_graph` for one endpoint.  The keyword
arguments are evaluated before the node is added, so a `KeyError` there
leaves the graph unchanged; note no `normalized_text` attribute is set. -/
def ensureEndpointNode (kg : KG) (nodeId : String) (ep : EndpointRecord) :
    KG × Except PyError Unit :=
  if kg.hasNode nodeId then (kg, .ok ())
  else
    match ep.type, ep.text with
    | some t, some tx =>
      ({ kg with nodes := kg.nodes ++ [(nodeId, ⟨some t, some tx, none, some []⟩)] },
       .ok ())
    | none, _ => (kg, .error (.keyError "type"))
    | _, none => (kg, .error (.keyError "text"))

/-- `add_relation_to_graph(kg, relation)`.  Reads
`relation['subject']['id']`, `relation['object']['id']`,
`relation['predicate']` first (no mutation yet); then ensures the subject
node, then the object node; then builds the edge-attribute dict, reading
`relation['evidence']` and `relation['confidence']` — a `KeyError` at that
point leaves any endpoint nodes just created in the graph; finally adds a
new parallel edge whose key is the current number of `(u, v)` edges. -/
def add_relation_to_graph (kg : KG) (relation : RelationRecord) :
    KG × Except PyError (String × String × Nat) :=
  match (do
      let subj ← dictGet relation.subject "subject"
      let subject_id ← dictGet subj.id "id"
      let obj ← dictGet relation.object "object"
      let object_id ← dictGet obj.id "id"
      let predicate ← dictGet relation.predicate "predicate"
      pure (subj, subject_id, obj, object_id, predicate) :
      Except PyError (EndpointRecord × String × EndpointRecord × String × String)) with
  | .error e => (kg, .error e)
  | .ok (subj, subject_id, obj, object_id, predicate) =>
    match ensureEndpointNode kg subject_id subj with
    | (kg1, .error e) => (kg1, .error e)
    | (kg1, .ok _) =>
      match ensureEndpointNode kg1 object_id obj with
      | (kg2, .error e) => (kg2, .error e)
      | (kg2, .ok _) =>
        match relation.evidence with
        | none => (kg2, .error (.keyError "evidence"))
        | some ev =>
          match relation.confidence with
          | none => (kg2, .error (.keyError "confidence"))
          | some conf =>
            let key := kg2.pairCount subject_id object_id
            ({ kg2 with
                edges := kg2.edges ++
                  [⟨subject_id, object_id, key, ⟨predicate, ev, conf, []⟩⟩] },
             .ok (subject_id, object_id, key))

/-! ### Persistence (`save_knowledge_graph` / `load_knowledge_graph`) -/

/-- The `metadata` block `save_knowledge_graph` adds to the document
(the wall-clock `saved_at` string is not represented). -/
structure SaveMeta where
  node_count : Nat
  edge_count : Nat
deriving DecidableEq, Repr

/-- The JSON node-link document produced by `nx.node_link_data`: the ordered
node list (id plus attributes) and the ordered link list
(source, target, key, attributes), plus the extra `metadata` block. -/
structure NodeLinkDoc where
  nodes : List (String × NodeAttrs)
  links : List Edge
  metadata : SaveMeta
deriving DecidableEq, Repr

/-- `save_knowledge_graph(kg, path)`, success path: serialize to the
node-link document and add the `metadata` block.  Directory creation and the
`False`-on-`IOError` path concern the file system, outside this model. -/
def save_knowledge_graph (kg : KG) : NodeLinkDoc :=
  ⟨kg.nodes, kg.edges, ⟨kg.nodeCount, kg.edgeCount⟩⟩

/-- Python `dict.update` on a node attribute dict: keys present in `upd`
overwrite, keys absent from `upd` survive. -/
def NodeAttrs.update (old upd : NodeAttrs) : NodeAttrs :=
  ⟨upd.type <|> old.type, upd.text <|> old.text,
   upd.normalized_text <|> old.normalized_text, upd.sources <|> old.sources⟩

/-- `kg.add_node(i, **attrs)`: insert if absent, else merge the attributes. -/
def addNodeDoc (kg : KG) (p : String × NodeAttrs) : KG :=
  if kg.hasNode p.1 then
    { kg with
      nodes := kg.nodes.map (fun q => if q.1 == p.1 then (q.1, q.2.update p.2) else q) }
  else { kg with nodes := kg.nodes ++ [p] }

/-- `add_edge` auto-creating a missing endpoint with an empty attr dict. -/
def ensureNodeBare (kg : KG) (i : String) : KG :=
  if kg.hasNode i then kg
  else { kg with nodes := kg.nodes ++ [(i, ⟨none, none, none, none⟩)] }

/-- `kg.add_edge(u, v, key=k, **attrs)` with an explicit key, as performed by
`nx.node_link_graph`: ensure both endpoints, then insert the edge under
`(u, v, k)`, overwriting the attributes if that key already exists. -/
def addEdgeWithKey (kg : KG) (e : Edge) : KG :=
  let kg1 := ensureNodeBare kg e.u
  let kg2 := ensureNodeBare kg1 e.v
  if kg2.edges.any (fun e2 => e2.u == e.u && e2.v == e.v && e2.key == e.key) then
    { kg2 with
      edges := kg2.edges.map (fun e2 => if e2.u == e.u && e2.v == e.v && e2.key == e.key then e else e2) }
  else { kg2 with edges := kg2.edges ++ [e] }

/-- `load_knowledge_graph(path)`, success path:
`nx.node_link_graph(data, directed=True, multigraph=True)` rebuilds the
multigraph by adding every listed node with its attributes, then every link
under its recorded key.  The extra `metadata` block is ignored. -/
def load_knowledge_graph (doc : NodeLinkDoc) : KG :=
  doc.links.foldl addEdgeWithKey (doc.nodes.foldl addNodeDoc create_knowledge_graph)

/-! ### Text matching (`query_kg_by_entity`, tokenisation, entry nodes) -/

/-- Python `str.lower()`: per-character ASCII case mapping on the character
sequence (`String.toLower` maps `Char.toLower` over the characters; this
explicit form keeps every definition kernel-computable). -/
def pyLower (s : String) : String := ⟨s.data.map Char.toLower⟩

/-- Python substring test `needle in hay`, on explicit character lists. -/
def listContainsSub (needle : List Char) : List Char → Bool
  | [] => needle.isEmpty
  | c :: rest => needle.isPrefixOf (c :: rest) || listContainsSub needle rest

/-- Python `needle in hay` on strings. -/
def strContains (hay needle : String) : Bool :=
  listContainsSub needle.data hay.data

/-- `query_kg_by_entity(kg, entity_text, entity_type)`: nodes whose `text`
or `normalized_text` contains `entity_text` case-insensitively (a missing
attribute reads as `""` via `data.get`), filtered by `entity_type` when
given (`data.get('type')` of a node without `type` is `None`, which never
equals a string filter). -/
def query_kg_by_entity (kg : KG) (entity_text : String) (entity_type : Option String) :
    List String :=
  kg.nodes.foldl
    (fun acc p =>
      if strContains (pyLower (p.2.text.getD "")) (pyLower entity_text) ||
         strContains (pyLower (p.2.normalized_text.getD "")) (pyLower entity_text) then
        if (match entity_type with
            | none => true
            | some t => p.2.type == some t) then
          acc ++ [p.1]
        else acc
      else acc)
    []

/-- Characters kept by `_simple_tokenise`: ASCII letters after lowercasing,
and digits. -/
def isTokenChar (c : Char) : Bool :=
  (Char.ofNat 97 ≤ c && c ≤ Char.ofNat 122) || (Char.ofNat 48 ≤ c && c ≤ Char.ofNat 57)

/-- The character loop of `_simple_tokenise`, carrying the `current` run. -/
def tokeniseChars (current : String) : List Char → List String
  | [] => if current.isEmpty then [] else [current]
  | c :: rest =>
    if isTokenChar c then tokeniseChars (current.push c) rest
    else if current.isEmpty then tokeniseChars "" rest
    else current :: tokeniseChars "" rest

/-- `_simple_tokenise(question)`: lowercase, split into maximal runs of
`a-z`/`0-9`. -/
def simple_tokenise (question : String) : List String :=
  tokeniseChars "" (pyLower question).data

/-- The per-node text `identify_entry_nodes` matches against:
`normalized_text`, falling back to `text` when absent or empty, lowercased. -/
def nodeSearchText (data : NodeAttrs) : String :=
  let node_text := data.normalized_text.getD ""
  let node_text := if node_text.isEmpty then data.text.getD "" else node_text
  pyLower node_text

/-- The inner token loop of `identify_entry_nodes`: some non-empty token is
a substring of the node's search text (the `break` makes each node appear at
most once). -/
def nodeMatchesTokens (tokens : List String) (data : NodeAttrs) : Bool :=
  tokens.any (fun token => !token.isEmpty && strContains (nodeSearchText data) token)

/-- `identify_entry_nodes(kg, tokens)` (the `kg is None` early return is
handled by the caller model in `answer_question_from_kg`). -/
def identify_entry_nodes (kg : KG) (tokens : List String) : List String :=
  kg.nodes.foldl (fun acc p => if nodeMatchesTokens tokens p.2 then acc ++ [p.1] else acc) []


/-! ### Neighborhood traversal (`traverse_subgraph`) -/

/-- A Python `set` modelled as a duplicate-free insertion-ordered list:
`s.add(x)` keeps `s` when `x` is present, else appends. -/
def insertSet (s : List String) (x : String) : List String :=
  if s.contains x then s else s ++ [x]

/-- BFS state: `(visited, sub_nodes, next_frontier)`. -/
abbrev BfsState := List String × List String × List String

/-- The body shared by the outgoing- and incoming-edge loops of
`traverse_subgraph`: if the neighbour is unvisited, mark it visited and push
it to the next frontier; always add it to `sub_nodes`. -/
def visitNeighbour (st : BfsState) (nb : String) : BfsState :=
  let (visited, sub_nodes, next_frontier) := st
  if visited.contains nb then (visited, insertSet sub_nodes nb, next_frontier)
  else (visited ++ [nb], insertSet sub_nodes nb, next_frontier ++ [nb])

/-- Processing one frontier node: visit the targets of its outgoing edges in
edge order, then the sources of its incoming edges.  The BFS is parametric
in the two neighbour enumerations so that the plain value graph and the
store-based runtime graph of the aliasing analysis share one algorithm. -/
def processNode (outN inN : String → List String) (st : BfsState) (node : String) :
    BfsState :=
  (inN node).foldl visitNeighbour ((outN node).foldl visitNeighbour st)

/-- The `while frontier and depth < max_depth` loop of `traverse_subgraph`,
on states `(frontier, visited, sub_nodes)`. -/
def bfsLoop (outN inN : String → List String) :
    Nat → List String × List String × List String → List String × List String × List String
  | 0, st => st
  | d + 1, (frontier, visited, sub_nodes) =>
    if frontier.isEmpty then (frontier, visited, sub_nodes)
    else
      let (visited', sub_nodes', next_frontier) :=
        frontier.foldl (processNode outN inN) (visited, sub_nodes, [])
      bfsLoop outN inN d (next_frontier, visited', sub_nodes')

/-- The final `sub_nodes` set of the BFS of `traverse_subgraph`: seed
`visited` and `sub_nodes` with the entry nodes, run the loop `max_depth`
times (or until the frontier empties). -/
def bfsNodes (outN inN : String → List String) (entry_nodes : List String)
    (max_depth : Nat) : List String :=
  let visited0 := entry_nodes.foldl insertSet []
  (bfsLoop outN inN max_depth (entry_nodes, visited0, visited0)).2.2

/-- Targets of the outgoing edges of `n`, in edge order
(`kg.out_edges(node, keys=True)`). -/
def KG.outNeighbors (kg : KG) (n : String) : List String :=
  kg.edges.filterMap (fun e => if e.u == n then some e.v else none)

/-- Sources of the incoming edges of `n`, in edge order
(`kg.in_edges(node, keys=True)`). -/
def KG.inNeighbors (kg : KG) (n : String) : List String :=
  kg.edges.filterMap (fun e => if e.v == n then some e.u else none)

/-- `kg.subgraph(ns)`: the induced sub-graph on the node ids of `ns` that
exist in `kg` — every edge of `kg` with both endpoints in `ns`. -/
def KG.inducedSubgraph (kg : KG) (ns : List String) : KG :=
  ⟨kg.nodes.filter (fun p => ns.contains p.1),
   kg.edges.filter (fun e => ns.contains e.u && ns.contains e.v)⟩

/-- `traverse_subgraph(kg, entry_nodes, max_depth)` (the `kg is None` guard
is handled at the `answer_question_from_kg` level): BFS around the entry
nodes, then `kg.subgraph(sub_nodes).copy()`. -/
def traverse_subgraph (kg : KG) (entry_nodes : List String) (max_depth : Nat) : KG :=
  if entry_nodes.isEmpty then ⟨[], []⟩
  else kg.inducedSubgraph (bfsNodes kg.outNeighbors kg.inNeighbors entry_nodes max_depth)

/-! ### Context, citations, answer synthesis (`kag_solver.py`) -/

/-- `format_context_for_llm(kg_sub)`: one `ENTITY` line per node, then one
`RELATION` line per edge (`kg_sub.nodes[u]` of an absent endpoint, which a
traversal result never produces, reads as `""` here). -/
def format_context_for_llm (kg_sub : KG) : String :=
  let nodeLines := kg_sub.nodes.map
    (fun p => "ENTITY [" ++ p.2.type.getD "?" ++ "] " ++ p.2.text.getD "")
  let edgeLines := kg_sub.edges.map
    (fun e =>
      "RELATION (" ++ e.attrs.type ++ ") " ++
        ((kg_sub.lookupNode e.u).map (fun a => a.text.getD "")).getD "" ++ " -> " ++
        ((kg_sub.lookupNode e.v).map (fun a => a.text.getD "")).getD "")
  String.intercalate "\n" (nodeLines ++ edgeLines)

/-- The de-duplication key of `gather_citations`:
`(pubmed_id, section, start_pos, end_pos)` — `timestamp` is excluded. -/
def citeKey (s : SourceRef) : String × String × Option Int × Option Int :=
  (s.pubmed_id, s.sectionName, s.start_pos, s.end_pos)

/-- One step of `gather_citations` on the accumulator
`(citations, seen_keys)`. -/
def citeStep (acc : List SourceRef × List (String × String × Option Int × Option Int))
    (source : SourceRef) : List SourceRef × List (String × String × Option Int × Option Int) :=
  if acc.2.contains (citeKey source) then acc
  else (acc.1 ++ [source], acc.2 ++ [citeKey source])

/-- `gather_citations(kg_sub)`: scan the `sources` of every node, then of
every edge, keeping the first SourceRef per key. -/
def gather_citations (kg_sub : KG) : List SourceRef :=
  (kg_sub.edges.foldl (fun acc e => e.attrs.sources.foldl citeStep acc)
    (kg_sub.nodes.foldl (fun acc p => (p.2.sources.getD []).foldl citeStep acc) ([], []))).1

/-- All SourceRefs of the sub-graph in scan order: node sources first (in
node order), then edge sources (in edge order). -/
def allSources (kg_sub : KG) : List SourceRef :=
  (kg_sub.nodes.map (fun p => p.2.sources.getD [])).flatten ++
    (kg_sub.edges.map (fun e => e.attrs.sources)).flatten

/-- `DEFAULT_ANSWER_PREFIX` of `kag_solver.py`. -/
def defaultAnswerStubHeader : String :=
  "(Stub answer ‑ replace *synthesise_answer* with real LLM integration)\n"

/-- `synthesise_answer(question, context)`: the stub answer text. -/
def synthesise_answer (question context : String) : String :=
  String.intercalate "\n"
    [defaultAnswerStubHeader,
     "Question: " ++ question,
     "Relevant context (truncated to 500 chars):",
     context.take 500]

/-- The `{"answer": ..., "citations": ...}` result dict. -/
structure AnswerResult where
  answer : String
  citations : List SourceRef
deriving DecidableEq, Repr

/-- `answer_question_from_kg(question, kg_path, traversal_depth)`.  The
`load_kg` file-existence probe is modelled by passing the loaded graph as an
`Option`: `none` is a missing/unloadable path. -/
def answer_question_from_kg (question : String) (kg : Option KG)
    (traversal_depth : Nat) : AnswerResult :=
  match kg with
  | none => ⟨"Knowledge graph not found at provided path.", []⟩
  | some kg =>
    let tokens := simple_tokenise question
    let entry_nodes := identify_entry_nodes kg tokens
    if entry_nodes.isEmpty then ⟨"No relevant information found in KG.", []⟩
    else
      let kg_sub := traverse_subgraph kg entry_nodes traversal_depth
      ⟨synthesise_answer question (format_context_for_llm kg_sub),
       gather_citations kg_sub⟩

/-- Which pipeline stages `answer_question_from_kg` reaches, mirroring its
control flow: `(traversal run, synthesis run)`.  The short-circuit branches
return before `traverse_subgraph` and `synthesise_answer` are evaluated. -/
def answerPipelineStages (question : String) (kg : Option KG) : Bool × Bool :=
  match kg with
  | none => (false, false)
  | some kg =>
    if (identify_entry_nodes kg (simple_tokenise question)).isEmpty then (false, false)
    else (true, true)

/-! ### Runtime aliasing model of `subgraph(...).copy()` (shallow copy)

NetworkX `copy()` produces an independent graph structure with fresh
attribute dicts, but the attribute *values* — in particular each `sources`
list object — are shared with the original graph.  To reason about that
sharing, node and edge records here hold an address (`sourcesRef`) into an
explicit store of list objects, and reading or appending provenance goes
through the store. -/

/-- The heap of Python list objects holding `sources` lists. -/
abbrev Store := List (List SourceRef)

/-- A node attribute dict at runtime: the `sources` value is a reference to
a list object in the store. -/
structure RNodeData where
  type : String
  text : String
  sourcesRef : Nat
deriving DecidableEq, Repr

/-- An edge at runtime, its `sources` value likewise a store reference. -/
structure REdge where
  u : String
  v : String
  key : Nat
  type : String
  sourcesRef : Nat
deriving DecidableEq, Repr

/-- The runtime view of the multigraph. -/
structure RGraph where
  nodes : List (String × RNodeData)
  edges : List REdge
deriving DecidableEq, Repr

/-- Out-neighbours in the runtime view (same enumeration as `KG`). -/
def RGraph.outNeighbors (g : RGraph) (n : String) : List String :=
  g.edges.filterMap (fun e => if e.u == n then some e.v else none)

/-- In-neighbours in the runtime view. -/
def RGraph.inNeighbors (g : RGraph) (n : String) : List String :=
  g.edges.filterMap (fun e => if e.v == n then some e.u else none)

/-- Node attribute record of `i` in the runtime view. -/
def RGraph.lookupNode (g : RGraph) (i : String) : Option RNodeData :=
  (g.nodes.find? (fun p => p.1 == i)).map Prod.snd

/-- `g.subgraph(ns)` in the runtime view: node and edge records are copied
as values, so the contained `sourcesRef` addresses still point to the same
store cells as the original graph's records. -/
def RGraph.inducedSubgraph (g : RGraph) (ns : List String) : RGraph :=
  ⟨g.nodes.filter (fun p => ns.contains p.1),
   g.edges.filter (fun e => ns.contains e.u && ns.contains e.v)⟩

/-- `traverse_subgraph` in the runtime view.  `kg.subgraph(...).copy()` only
reads the store (copying attribute dicts copies the references, not the list
objects), so the store is returned unchanged. -/
def traverse_subgraph_rt (store : Store) (kg : RGraph) (entry_nodes : List String)
    (max_depth : Nat) : Store × RGraph :=
  if entry_nodes.isEmpty then (store, ⟨[], []⟩)
  else
    (store, kg.inducedSubgraph (bfsNodes kg.outNeighbors kg.inNeighbors entry_nodes max_depth))

/-- The `sources` list of node `i` of `g`, read through the store
(`g.nodes[i]['sources']`); `[]` for a missing node or dangling reference. -/
def readNodeSources (store : Store) (g : RGraph) (i : String) : List SourceRef :=
  match g.lookupNode i with
  | some a => store.getD a.sourcesRef []
  | none => []

/-- `g.nodes[i]['sources'].append(s)`: mutate the shared list object in the
store that node `i`'s `sourcesRef` points to. -/
def appendNodeSource (store : Store) (g : RGraph) (i : String) (s : SourceRef) : Store :=
  match g.lookupNode i with
  | some a => store.set a.sourcesRef (store.getD a.sourcesRef [] ++ [s])
  | none => store

/-- First-occurrence-per-key filter: the order/multiplicity view of the
de-duplication performed by `gather_citations`, relative to an already-seen
key set. -/
def firstPerKey (seen : List (String × String × Option Int × Option Int)) :
    List SourceRef → List SourceRef
  | [] => []
  | s :: rest =>
    if seen.contains (citeKey s) then firstPerKey seen rest
    else s :: firstPerKey (seen ++ [citeKey s]) rest

/-! ## Theorems -/

theorem hasNode_iff (kg : KG) (i : String) :
    kg.hasNode i = true ↔ ∃ p ∈ kg.nodes, p.1 = i := by
  simp [KG.hasNode, List.any_eq_true, beq_iff_eq]

/-- C1: upserting two entity records with equal `(type, normalized_text)`
returns the same node id both times, the second upsert leaves the graph
(hence the node's `type`, `text`, `normalized_text` attributes) exactly as
after the first, and the node count grows by at most one. -/
theorem upsert_entity_idempotent (kg : KG) (e1 e2 : EntityRecord) (t tx1 tx2 n : String)
    (h1t : e1.type = some t) (h1x : e1.text = some tx1) (h1n : e1.normalized_text = some n)
    (h2t : e2.type = some t) (h2x : e2.text = some tx2) (h2n : e2.normalized_text = some n) :
    (add_entity_to_graph kg e1).2 = .ok (t ++ ":" ++ n) ∧
    add_entity_to_graph (add_entity_to_graph kg e1).1 e2 =
      ((add_entity_to_graph kg e1).1, .ok (t ++ ":" ++ n)) ∧
    (add_entity_to_graph kg e1).1.nodeCount ≤ kg.nodeCount + 1 := by
  obtain ⟨t1, x1, n1⟩ := e1
  obtain ⟨t2, x2, n2⟩ := e2
  simp only [EntityRecord.type, EntityRecord.text, EntityRecord.normalized_text] at h1t h1x h1n h2t h2x h2n
  subst h1t; subst h1x; subst h1n; subst h2t; subst h2x; subst h2n
  have hid : generate_entity_id ⟨some t, some tx1, some n⟩ = .ok (t ++ ":" ++ n) := rfl
  have hid2 : generate_entity_id ⟨some t, some tx2, some n⟩ = .ok (t ++ ":" ++ n) := rfl
  by_cases h : kg.hasNode (t ++ ":" ++ n) = true
  · simp [add_entity_to_graph, hid, hid2, h, KG.nodeCount]
  · have h' : kg.hasNode (t ++ ":" ++ n) = false := by
      cases hb : kg.hasNode (t ++ ":" ++ n) with
      | false => rfl
      | true => exact absurd hb h
    have hmem : ({ kg with
        nodes := kg.nodes ++ [((t ++ ":" ++ n), ⟨some t, some tx1, some n, some []⟩)] } : KG).hasNode
          (t ++ ":" ++ n) = true := by
      simp [KG.hasNode, List.any_append]
    simp [add_entity_to_graph, hid, hid2, h', hmem, KG.nodeCount]

/-- Witness for C1 at a concrete input. -/
theorem upsert_entity_idempotent_witness :
    (add_entity_to_graph ⟨[], []⟩
        ⟨some "DISEASE", some "Diabetes Mellitus", some "diabetes mellitus"⟩).2 =
      .ok ("DISEASE" ++ ":" ++ "diabetes mellitus") ∧
    add_entity_to_graph
        (add_entity_to_graph ⟨[], []⟩
          ⟨some "DISEASE", some "Diabetes Mellitus", some "diabetes mellitus"⟩).1
        ⟨some "DISEASE", some "diabetes", some "diabetes mellitus"⟩ =
      ((add_entity_to_graph ⟨[], []⟩
          ⟨some "DISEASE", some "Diabetes Mellitus", some "diabetes mellitus"⟩).1,
       .ok ("DISEASE" ++ ":" ++ "diabetes mellitus")) ∧
    (add_entity_to_graph ⟨[], []⟩
        ⟨some "DISEASE", some "Diabetes Mellitus", some "diabetes mellitus"⟩).1.nodeCount ≤
      (⟨[], []⟩ : KG).nodeCount + 1 :=
  upsert_entity_idempotent ⟨[], []⟩
    ⟨some "DISEASE", some "Diabetes Mellitus", some "diabetes mellitus"⟩
    ⟨some "DISEASE", some "diabetes", some "diabetes mellitus"⟩
    "DISEASE" "Diabetes Mellitus" "diabetes" "diabetes mellitus"
    rfl rfl rfl rfl rfl rfl

/-- C4, counterexample: the id derivation `type ++ ":" ++ normalized_text`
collides on the distinct pairs `("A:B", "C")` and `("A", "B:C")`, so it is
not collision-free over all non-empty strings as claimed. -/
theorem generate_entity_id_collision :
    generate_entity_id ⟨some "A:B", some "x", some "C"⟩ =
      generate_entity_id ⟨some "A", some "x", some "B:C"⟩ ∧
    (("A:B", "C") : String × String) ≠ ("A", "B:C") := by
  constructor
  · rfl
  · decide

theorem sepAppend_inj (a : List Char) :
    ∀ (c b d : List Char), ':' ∉ a → ':' ∉ c →
      a ++ ':' :: b = c ++ ':' :: d → a = c ∧ b = d := by
  induction a with
  | nil =>
    intro c b d _ hc h
    cases c with
    | nil =>
      rw [List.nil_append, List.nil_append] at h
      injection h with h1 h2
      exact ⟨rfl, h2⟩
    | cons y c' =>
      rw [List.nil_append, List.cons_append] at h
      injection h with h1 h2
      exact absurd (by rw [← h1]; exact List.mem_cons_self ':' c') hc
  | cons x a' ih =>
    intro c b d ha hc h
    cases c with
    | nil =>
      rw [List.cons_append, List.nil_append] at h
      injection h with h1 h2
      exact absurd (by rw [h1]; exact List.mem_cons_self ':' a') ha
    | cons y c' =>
      rw [List.cons_append, List.cons_append] at h
      injection h with h1 h2
      have := ih c' b d (fun hm => ha (List.mem_cons_of_mem x hm))
        (fun hm => hc (List.mem_cons_of_mem y hm)) h2
      exact ⟨by rw [h1, this.1], this.2⟩

/-- C4, amended: `generate_entity_id` is a pure deterministic function of
`(type, normalized_text)` alone, and it is collision-free for distinct
pairs whose type strings contain no `:` separator character (all entity
types produced by this repository are colon-free tags such as `DISEASE`);
over arbitrary strings it collides, see the counterexample. -/
theorem generate_entity_id_deterministic_and_collision_free :
    (∀ e1 e2 : EntityRecord, e1.type = e2.type → e1.normalized_text = e2.normalized_text →
      generate_entity_id e1 = generate_entity_id e2) ∧
    (∀ t1 n1 t2 n2 : String, ':' ∉ t1.data → ':' ∉ t2.data →
      (t1, n1) ≠ (t2, n2) →
      generate_entity_id ⟨some t1, none, some n1⟩ ≠ generate_entity_id ⟨some t2, none, some n2⟩) := by
  constructor
  · intro e1 e2 ht hn
    obtain ⟨t1, x1, n1⟩ := e1
    obtain ⟨t2, x2, n2⟩ := e2
    simp only [EntityRecord.type, EntityRecord.normalized_text] at ht hn
    subst ht; subst hn
    rfl
  · intro t1 n1 t2 n2 h1 h2 hne heq
    have hs : t1 ++ ":" ++ n1 = t2 ++ ":" ++ n2 := by
      have : (Except.ok (t1 ++ ":" ++ n1) : Except PyError String) = .ok (t2 ++ ":" ++ n2) := heq
      exact Except.ok.inj this
    have hd : t1.data ++ ':' :: n1.data = t2.data ++ ':' :: n2.data := by
      have := congrArg String.data hs
      simpa [String.data_append] using this
    have hij := sepAppend_inj t1.data t2.data n1.data n2.data h1 h2 hd
    exact hne (by rw [String.ext hij.1, String.ext hij.2])

/-- Witness for the amended C4 at concrete inputs. -/
theorem generate_entity_id_collision_free_witness :
    generate_entity_id ⟨some "DISEASE", none, some "diabetes mellitus"⟩ ≠
      generate_entity_id ⟨some "GENE", none, some "ins"⟩ :=
  generate_entity_id_deterministic_and_collision_free.2
    "DISEASE" "diabetes mellitus" "GENE" "ins" (by decide) (by decide) (by decide)

/-- C2, counterexample: upserting a relation record that is malformed
(missing `evidence`) into an empty graph raises a `KeyError` — the code has
no `InvalidRecordError` — and leaves both freshly created endpoint nodes in
the graph, so the failing call does not leave the graph as it was. -/
theorem add_relation_malformed_partial_mutation :
    (add_relation_to_graph ⟨[], []⟩
        ⟨some ⟨some "GENE:ins", some "GENE", some "INS"⟩,
         some ⟨some "DISEASE:diabetes mellitus", some "DISEASE", some "Diabetes Mellitus"⟩,
         some "related_to", none, some 1⟩).2 = .error (.keyError "evidence") ∧
    (add_relation_to_graph ⟨[], []⟩
        ⟨some ⟨some "GENE:ins", some "GENE", some "INS"⟩,
         some ⟨some "DISEASE:diabetes mellitus", some "DISEASE", some "Diabetes Mellitus"⟩,
         some "related_to", none, some 1⟩).1 ≠ ⟨[], []⟩ := by
  constructor
  · rfl
  · decide

theorem ensure_endpoint_ok (kg : KG) (i : String) (ep : EndpointRecord)
    (ht : ep.type.isSome = true) (hx : ep.text.isSome = true) :
    (ensureEndpointNode kg i ep).2 = .ok () := by
  obtain ⟨idO, tO, xO⟩ := ep
  cases tO with
  | none => simp at ht
  | some t =>
    cases xO with
    | none => simp at hx
    | some x =>
      unfold ensureEndpointNode
      split <;> rfl

theorem ensure_endpoint_hasNode_self (kg : KG) (i : String) (ep : EndpointRecord)
    (ht : ep.type.isSome = true) (hx : ep.text.isSome = true) :
    (ensureEndpointNode kg i ep).1.hasNode i = true := by
  obtain ⟨idO, tO, xO⟩ := ep
  cases tO with
  | none => simp at ht
  | some t =>
    cases xO with
    | none => simp at hx
    | some x =>
      unfold ensureEndpointNode
      by_cases h : kg.hasNode i
      · simp [h]
      · simp only [h]
        simp [KG.hasNode, List.any_append]

theorem ensure_endpoint_hasNode_mono (kg : KG) (i j : String) (ep : EndpointRecord)
    (h : kg.hasNode j = true) :
    (ensureEndpointNode kg i ep).1.hasNode j = true := by
  obtain ⟨idO, tO, xO⟩ := ep
  unfold ensureEndpointNode
  by_cases hi : kg.hasNode i
  · simpa [hi] using h
  · simp only [hi]
    cases tO <;> cases xO <;>
      simp_all [KG.hasNode, List.any_append]

/-- C2, amended: a malformed entity record (missing `type`, `text` or
`normalized_text`) leaves the graph unchanged by `add_entity_to_graph`
(the raised error is a `KeyError`, not an `InvalidRecordError`, which the
code does not define), but `add_relation_to_graph` is not atomic: when the
record is complete up to a missing `evidence` field, the call fails with
`KeyError('evidence')` and the endpoint nodes it created beforehand remain
in the graph. -/
theorem upsert_malformed_behaviour :
    (∀ (kg : KG) (e : EntityRecord),
      e.type = none ∨ e.normalized_text = none ∨ e.text = none →
      (add_entity_to_graph kg e).1 = kg) ∧
    (∀ (kg : KG) (subj obj : EndpointRecord) (sid oid pred : String) (conf : Option Rat),
      subj.id = some sid → obj.id = some oid →
      subj.type.isSome = true → subj.text.isSome = true →
      obj.type.isSome = true → obj.text.isSome = true →
      add_relation_to_graph kg ⟨some subj, some obj, some pred, none, conf⟩ =
        ((ensureEndpointNode (ensureEndpointNode kg sid subj).1 oid obj).1,
         .error (.keyError "evidence")) ∧
      (add_relation_to_graph kg ⟨some subj, some obj, some pred, none, conf⟩).1.hasNode sid
        = true) := by
  constructor
  · intro kg e h
    obtain ⟨t, x, n⟩ := e
    cases t with
    | none => rfl
    | some tv =>
      cases n with
      | none => rfl
      | some nv =>
        cases x with
        | some xv => simp at h
        | none =>
          have hid : generate_entity_id ⟨some tv, none, some nv⟩ =
              .ok (tv ++ ":" ++ nv) := rfl
          by_cases hn : kg.hasNode (tv ++ ":" ++ nv) = true
          · simp [add_entity_to_graph, hid, hn]
          · have hn' : kg.hasNode (tv ++ ":" ++ nv) = false := by
              cases hb : kg.hasNode (tv ++ ":" ++ nv) with
              | false => rfl
              | true => exact absurd hb hn
            simp [add_entity_to_graph, hid, hn']
  · intro kg subj obj sid oid pred conf hsid hoid hst hsx hot hox
    have h1 : ensureEndpointNode kg sid subj =
        ((ensureEndpointNode kg sid subj).1, .ok ()) := by
      have := ensure_endpoint_ok kg sid subj hst hsx
      exact Prod.ext rfl this
    have h2 : ensureEndpointNode (ensureEndpointNode kg sid subj).1 oid obj =
        ((ensureEndpointNode (ensureEndpointNode kg sid subj).1 oid obj).1, .ok ()) := by
      have := ensure_endpoint_ok (ensureEndpointNode kg sid subj).1 oid obj hot hox
      exact Prod.ext rfl this
    have hmain : add_relation_to_graph kg ⟨some subj, some obj, some pred, none, conf⟩ =
        ((ensureEndpointNode (ensureEndpointNode kg sid subj).1 oid obj).1,
         .error (.keyError "evidence")) := by
      unfold add_relation_to_graph
      simp only [dictGet, Bind.bind, Except.bind, Pure.pure, Except.pure, hsid, hoid]
      rw [h1]
      dsimp only []
      rw [h2]
    refine ⟨hmain, ?_⟩
    rw [hmain]
    exact ensure_endpoint_hasNode_mono _ oid sid obj
      (ensure_endpoint_hasNode_self kg sid subj hst hsx)

/-- Witness for the amended C2 at a concrete input. -/
theorem upsert_malformed_behaviour_witness :
    (add_entity_to_graph ⟨[], []⟩ ⟨some "GENE", some "INS", none⟩).1 = ⟨[], []⟩ ∧
    (add_relation_to_graph ⟨[], []⟩
        ⟨some ⟨some "a", some "T", some "A"⟩, some ⟨some "b", some "T", some "B"⟩,
         some "rel", none, none⟩).1.hasNode "a" = true :=
  ⟨upsert_malformed_behaviour.1 ⟨[], []⟩ ⟨some "GENE", some "INS", none⟩ (Or.inr (Or.inl rfl)),
   (upsert_malformed_behaviour.2 ⟨[], []⟩ ⟨some "a", some "T", some "A"⟩
      ⟨some "b", some "T", some "B"⟩ "a" "b" "rel" none rfl rfl rfl rfl rfl rfl).2⟩

theorem hasNode_append_node (kg : KG) (p : String × NodeAttrs) (j : String) :
    (KG.mk (kg.nodes ++ [p]) kg.edges).hasNode j = (kg.hasNode j || (p.1 == j)) := by
  simp [KG.hasNode, List.any_append]

theorem foldl_addNodeDoc (rest : List (String × NodeAttrs)) :
    ∀ (acc : KG), (∀ p ∈ rest, acc.hasNode p.1 = false) → (rest.map Prod.fst).Nodup →
      rest.foldl addNodeDoc acc = ⟨acc.nodes ++ rest, acc.edges⟩ := by
  induction rest with
  | nil => intro acc _ _; simp
  | cons p rest ih =>
    intro acc hfresh hnd
    have hp : acc.hasNode p.1 = false := hfresh p (List.mem_cons_self p rest)
    have hstep : addNodeDoc acc p = ⟨acc.nodes ++ [p], acc.edges⟩ := by
      unfold addNodeDoc
      simp [hp]
    rw [List.foldl_cons, hstep, ih]
    · simp
    · intro q hq
      rw [hasNode_append_node]
      have h1 : acc.hasNode q.1 = false := hfresh q (List.mem_cons_of_mem p hq)
      have h2 : p.1 ≠ q.1 := by
        intro hc
        have : p.1 ∈ rest.map Prod.fst := hc ▸ List.mem_map_of_mem Prod.fst hq
        exact (List.nodup_cons.mp hnd).1 this
      simp [h1, h2]
    · exact (List.nodup_cons.mp hnd).2

theorem ensureNodeBare_of_hasNode (kg : KG) (i : String) (h : kg.hasNode i = true) :
    ensureNodeBare kg i = kg := by
  unfold ensureNodeBare
  simp [h]

theorem foldl_addEdgeWithKey (rest : List Edge) :
    ∀ (acc : KG), (∀ e ∈ rest, acc.hasNode e.u = true ∧ acc.hasNode e.v = true) →
      (∀ e ∈ rest, ∀ e2 ∈ acc.edges, ¬(e2.u = e.u ∧ e2.v = e.v ∧ e2.key = e.key)) →
      (rest.map (fun e => (e.u, e.v, e.key))).Nodup →
      rest.foldl addEdgeWithKey acc = ⟨acc.nodes, acc.edges ++ rest⟩ := by
  induction rest with
  | nil => intro acc _ _ _; simp
  | cons e rest ih =>
    intro acc hep hfresh hnd
    have hu := (hep e (List.mem_cons_self e rest)).1
    have hv := (hep e (List.mem_cons_self e rest)).2
    have hany : acc.edges.any (fun e2 => e2.u == e.u && e2.v == e.v && e2.key == e.key) = false := by
      rw [List.any_eq_false]
      intro e2 he2
      have := hfresh e (List.mem_cons_self e rest) e2 he2
      simp only [Bool.and_eq_true, beq_iff_eq]
      intro hc
      exact this ⟨hc.1.1, hc.1.2, hc.2⟩
    have hstep : addEdgeWithKey acc e = ⟨acc.nodes, acc.edges ++ [e]⟩ := by
      unfold addEdgeWithKey
      simp only []
      rw [ensureNodeBare_of_hasNode acc e.u hu, ensureNodeBare_of_hasNode acc e.v hv, hany]
      simp
    rw [List.foldl_cons, hstep, ih]
    · simp
    · intro e2 he2
      exact hep e2 (List.mem_cons_of_mem e he2)
    · intro e2 he2 e3 he3
      rcases List.mem_append.mp he3 with h | h
      · exact hfresh e2 (List.mem_cons_of_mem e he2) e3 h
      · have he3e : e3 = e := by simpa using h
        subst he3e
        intro hc
        have : (e3.u, e3.v, e3.key) ∈ rest.map (fun e => (e.u, e.v, e.key)) := by
          rw [hc.1, hc.2.1, hc.2.2]
          exact List.mem_map_of_mem _ he2
        exact (List.nodup_cons.mp hnd).1 this
    · exact (List.nodup_cons.mp hnd).2

/-- C3: for a graph with duplicate-free node ids and edge keys and no
dangling edge endpoints (all invariants maintained by the construction API),
built from at least one entity and one relation, the persistence round trip
`load_knowledge_graph (save_knowledge_graph kg)` reproduces the graph
exactly — in particular equal node and edge counts, identical attribute
content per node and per edge key, and the same number of parallel edges
for every `(subject, object)` pair. -/
theorem save_load_roundtrip (kg : KG)
    (hn : (kg.nodes.map Prod.fst).Nodup)
    (hk : (kg.edges.map (fun e => (e.u, e.v, e.key))).Nodup)
    (he : ∀ e ∈ kg.edges, kg.hasNode e.u = true ∧ kg.hasNode e.v = true)
    (_hne : kg.nodes ≠ []) (_hee : kg.edges ≠ []) :
    load_knowledge_graph (save_knowledge_graph kg) = kg ∧
    (load_knowledge_graph (save_knowledge_graph kg)).nodeCount = kg.nodeCount ∧
    (load_knowledge_graph (save_knowledge_graph kg)).edgeCount = kg.edgeCount ∧
    (∀ i, (load_knowledge_graph (save_knowledge_graph kg)).lookupNode i = kg.lookupNode i) ∧
    (∀ u v k, (load_knowledge_graph (save_knowledge_graph kg)).lookupEdge u v k =
      kg.lookupEdge u v k) ∧
    (∀ u v, (load_knowledge_graph (save_knowledge_graph kg)).pairCount u v =
      kg.pairCount u v) := by
  have hmain : load_knowledge_graph (save_knowledge_graph kg) = kg := by
    unfold load_knowledge_graph save_knowledge_graph create_knowledge_graph
    rw [foldl_addNodeDoc kg.nodes ⟨[], []⟩ (fun p _ => rfl) hn]
    rw [foldl_addEdgeWithKey kg.edges ⟨[] ++ kg.nodes, []⟩
      (by intro e heq; simpa [KG.hasNode] using he e heq)
      (by intro e _ e2 he2; simp at he2) hk]
    simp
  refine ⟨hmain, ?_, ?_, ?_, ?_, ?_⟩ <;> rw [hmain] <;> simp

/-- Witness for C3 at a concrete two-node, one-edge graph. -/
theorem save_load_roundtrip_witness :
    load_knowledge_graph (save_knowledge_graph
      ⟨[("DISEASE:diabetes mellitus",
          ⟨some "DISEASE", some "Diabetes Mellitus", some "diabetes mellitus", some []⟩),
        ("GENE:ins", ⟨some "GENE", some "INS", some "ins", some []⟩)],
       [⟨"DISEASE:diabetes mellitus", "GENE:ins", 0, ⟨"related_to", "ev", 1, []⟩⟩]⟩) =
      ⟨[("DISEASE:diabetes mellitus",
          ⟨some "DISEASE", some "Diabetes Mellitus", some "diabetes mellitus", some []⟩),
        ("GENE:ins", ⟨some "GENE", some "INS", some "ins", some []⟩)],
       [⟨"DISEASE:diabetes mellitus", "GENE:ins", 0, ⟨"related_to", "ev", 1, []⟩⟩]⟩ :=
  (save_load_roundtrip
    ⟨[("DISEASE:diabetes mellitus",
        ⟨some "DISEASE", some "Diabetes Mellitus", some "diabetes mellitus", some []⟩),
      ("GENE:ins", ⟨some "GENE", some "INS", some "ins", some []⟩)],
     [⟨"DISEASE:diabetes mellitus", "GENE:ins", 0, ⟨"related_to", "ev", 1, []⟩⟩]⟩
    (by decide) (by decide) (by decide) (by decide) (by decide)).1

theorem foldl_citeStep_eq (l : List SourceRef) :
    ∀ (cits : List SourceRef) (seen : List (String × String × Option Int × Option Int)),
      (l.foldl citeStep (cits, seen)).1 = cits ++ firstPerKey seen l := by
  induction l with
  | nil => intro cits seen; simp [firstPerKey]
  | cons s rest ih =>
    intro cits seen
    by_cases h : seen.contains (citeKey s) = true
    · have hstep : citeStep (cits, seen) s = (cits, seen) := by
        unfold citeStep
        simp only []
        rw [if_pos h]
      have hfk : firstPerKey seen (s :: rest) = firstPerKey seen rest := by
        simp only [firstPerKey]
        rw [if_pos h]
      rw [List.foldl_cons, hstep, ih, hfk]
    · have hstep : citeStep (cits, seen) s = (cits ++ [s], seen ++ [citeKey s]) := by
        unfold citeStep
        simp only []
        rw [if_neg h]
      have hfk : firstPerKey seen (s :: rest) = s :: firstPerKey (seen ++ [citeKey s]) rest := by
        simp only [firstPerKey]
        rw [if_neg h]
      rw [List.foldl_cons, hstep, ih, hfk]
      simp

theorem foldl_sources {α : Type} (f : α → List SourceRef) (xs : List α)
    (acc : List SourceRef × List (String × String × Option Int × Option Int)) :
    xs.foldl (fun acc x => (f x).foldl citeStep acc) acc =
      ((xs.map f).flatten).foldl citeStep acc := by
  rw [List.foldl_flatten, List.foldl_map]

theorem gather_citations_eq_firstPerKey (sub : KG) :
    gather_citations sub = firstPerKey [] (allSources sub) := by
  unfold gather_citations allSources
  rw [foldl_sources (fun p => p.2.sources.getD []) sub.nodes,
      foldl_sources (fun e => e.attrs.sources) sub.edges,
      ← List.foldl_append, foldl_citeStep_eq]
  simp

theorem firstPerKey_nodup_notin (l : List SourceRef) :
    ∀ seen, ((firstPerKey seen l).map citeKey).Nodup ∧
      ∀ c ∈ firstPerKey seen l, citeKey c ∉ seen := by
  induction l with
  | nil => intro seen; simp [firstPerKey]
  | cons s rest ih =>
    intro seen
    by_cases h : seen.contains (citeKey s) = true
    · have hfk : firstPerKey seen (s :: rest) = firstPerKey seen rest := by
        simp only [firstPerKey]; rw [if_pos h]
      rw [hfk]; exact ih seen
    · have hfk : firstPerKey seen (s :: rest) =
          s :: firstPerKey (seen ++ [citeKey s]) rest := by
        simp only [firstPerKey]; rw [if_neg h]
      rw [hfk]
      obtain ⟨ihn, ihm⟩ := ih (seen ++ [citeKey s])
      refine ⟨?_, ?_⟩
      · simp only [List.map_cons, List.nodup_cons]
        refine ⟨?_, ihn⟩
        intro hmem
        obtain ⟨c, hc, hck⟩ := List.mem_map.mp hmem
        exact ihm c hc (by rw [hck]; exact List.mem_append_right _ (List.mem_singleton_self _))
      · intro c hc
        rcases List.mem_cons.mp hc with rfl | hc'
        · intro hmem
          exact h (List.elem_iff.mpr hmem)
        · intro hmem
          exact ihm c hc' (List.mem_append_left _ hmem)

theorem firstPerKey_sublist (l : List SourceRef) :
    ∀ seen, List.Sublist (firstPerKey seen l) l := by
  induction l with
  | nil => intro seen; simp [firstPerKey]
  | cons s rest ih =>
    intro seen
    by_cases h : seen.contains (citeKey s) = true
    · have hfk : firstPerKey seen (s :: rest) = firstPerKey seen rest := by
        simp only [firstPerKey]; rw [if_pos h]
      rw [hfk]
      exact (ih seen).trans (List.sublist_cons_self s rest)
    · have hfk : firstPerKey seen (s :: rest) =
          s :: firstPerKey (seen ++ [citeKey s]) rest := by
        simp only [firstPerKey]; rw [if_neg h]
      rw [hfk]
      exact List.Sublist.cons₂ s (ih (seen ++ [citeKey s]))

theorem firstPerKey_coverage (l : List SourceRef) :
    ∀ seen s, s ∈ l →
      citeKey s ∈ seen ∨ ∃ c ∈ firstPerKey seen l, citeKey c = citeKey s := by
  induction l with
  | nil => intro seen s hs; simp at hs
  | cons a rest ih =>
    intro seen s hs
    by_cases h : seen.contains (citeKey a) = true
    · have hfk : firstPerKey seen (a :: rest) = firstPerKey seen rest := by
        simp only [firstPerKey]; rw [if_pos h]
      rw [hfk]
      rcases List.mem_cons.mp hs with rfl | hs'
      · left; exact List.elem_iff.mp h
      · exact ih seen s hs'
    · have hfk : firstPerKey seen (a :: rest) =
          a :: firstPerKey (seen ++ [citeKey a]) rest := by
        simp only [firstPerKey]; rw [if_neg h]
      rw [hfk]
      rcases List.mem_cons.mp hs with rfl | hs'
      · right; exact ⟨s, List.mem_cons_self s _, rfl⟩
      · rcases ih (seen ++ [citeKey a]) s hs' with hmem | ⟨c, hc, hck⟩
        · rcases List.mem_append.mp hmem with h1 | h2
          · left; exact h1
          · right; exact ⟨a, List.mem_cons_self a _, (List.mem_singleton.mp h2).symm⟩
        · right; exact ⟨c, List.mem_cons_of_mem a hc, hck⟩

theorem firstPerKey_first (l : List SourceRef) :
    ∀ seen c, c ∈ firstPerKey seen l →
      l.find? (fun s => citeKey s == citeKey c) = some c := by
  induction l with
  | nil => intro seen c hc; simp [firstPerKey] at hc
  | cons a rest ih =>
    intro seen c hc
    by_cases h : seen.contains (citeKey a) = true
    · have hfk : firstPerKey seen (a :: rest) = firstPerKey seen rest := by
        simp only [firstPerKey]; rw [if_pos h]
      rw [hfk] at hc
      have hnotin := (firstPerKey_nodup_notin rest seen).2 c hc
      have hne : (citeKey a == citeKey c) = false := by
        rw [beq_eq_false_iff_ne]
        intro heq
        exact hnotin (heq ▸ List.elem_iff.mp h)
      rw [List.find?_cons]
      simp only [hne]
      exact ih seen c hc
    · have hfk : firstPerKey seen (a :: rest) =
          a :: firstPerKey (seen ++ [citeKey a]) rest := by
        simp only [firstPerKey]; rw [if_neg h]
      rw [hfk] at hc
      rcases List.mem_cons.mp hc with rfl | hc'
      · rw [List.find?_cons]
        simp
      · have hnotin := (firstPerKey_nodup_notin rest (seen ++ [citeKey a])).2 c hc'
        have hne : (citeKey a == citeKey c) = false := by
          rw [beq_eq_false_iff_ne]
          intro heq
          exact hnotin (heq ▸ List.mem_append_right _ (List.mem_singleton_self _))
        rw [List.find?_cons]
        simp only [hne]
        exact ih (seen ++ [citeKey a]) c hc'

/-- C5: `gather_citations` returns SourceRefs of the sub-graph with pairwise
distinct `(document_id, section, start_pos, end_pos)` keys; every SourceRef
attached to any node or edge is represented by exactly one returned citation
with its key; the returned list is a sublist of the full node-then-edge
source scan (so first-seen order, nodes before edges); and each returned
citation is the *first* SourceRef of the scan bearing its key — hence two
SourceRefs differing only in `timestamp` yield one citation. -/
theorem gather_citations_spec (sub : KG) :
    ((gather_citations sub).map citeKey).Nodup ∧
    (∀ s ∈ allSources sub, ∃ c ∈ gather_citations sub, citeKey c = citeKey s) ∧
    List.Sublist (gather_citations sub) (allSources sub) ∧
    (∀ c ∈ gather_citations sub,
      (allSources sub).find? (fun s => citeKey s == citeKey c) = some c) := by
  rw [gather_citations_eq_firstPerKey]
  refine ⟨(firstPerKey_nodup_notin _ _).1, ?_, firstPerKey_sublist _ _,
    fun c hc => firstPerKey_first _ _ c hc⟩
  intro s hs
  rcases firstPerKey_coverage (allSources sub) [] s hs with hmem | hex
  · simp at hmem
  · exact hex

/-- Witness for C5: a sub-graph whose node carries two SourceRefs equal up
to `timestamp` yields exactly one citation, with duplicate-free keys. -/
theorem gather_citations_spec_witness :
    ((gather_citations ⟨[("DISEASE:d",
        ⟨some "DISEASE", some "d", some "d",
         some [⟨"PMID1", "abstract", some 0, some 5, "2024-01-01"⟩,
               ⟨"PMID1", "abstract", some 0, some 5, "2024-02-02"⟩]⟩)], []⟩).map citeKey).Nodup ∧
    gather_citations ⟨[("DISEASE:d",
        ⟨some "DISEASE", some "d", some "d",
         some [⟨"PMID1", "abstract", some 0, some 5, "2024-01-01"⟩,
               ⟨"PMID1", "abstract", some 0, some 5, "2024-02-02"⟩]⟩)], []⟩ =
      [⟨"PMID1", "abstract", some 0, some 5, "2024-01-01"⟩] :=
  ⟨(gather_citations_spec _).1, by decide⟩

theorem insertSet_mem (s : List String) (x y : String) :
    y ∈ insertSet s x ↔ y ∈ s ∨ y = x := by
  by_cases h : s.contains x = true
  · rw [insertSet, if_pos h]
    constructor
    · exact Or.inl
    · rintro (hy | rfl)
      · exact hy
      · exact List.elem_iff.mp h
  · rw [insertSet, if_neg h]
    simp

theorem visitNeighbour_sub (st : BfsState) (nb : String) :
    (visitNeighbour st nb).2.1 = insertSet st.2.1 nb := by
  obtain ⟨v, sn, nf⟩ := st
  simp only [visitNeighbour]
  split <;> rfl

theorem foldl_visit_mem (ns : List String) :
    ∀ (st : BfsState) (x : String), x ∈ st.2.1 → x ∈ (ns.foldl visitNeighbour st).2.1 := by
  induction ns with
  | nil => intro st x hx; exact hx
  | cons nb ns ih =>
    intro st x hx
    rw [List.foldl_cons]
    exact ih _ x (by rw [visitNeighbour_sub]; exact (insertSet_mem _ _ _).mpr (Or.inl hx))

theorem processNode_mem (outN inN : String → List String) (st : BfsState) (node x : String)
    (hx : x ∈ st.2.1) : x ∈ (processNode outN inN st node).2.1 := by
  unfold processNode
  exact foldl_visit_mem _ _ x (foldl_visit_mem _ _ x hx)

theorem foldl_process_mem (outN inN : String → List String) (frontier : List String) :
    ∀ (st : BfsState) (x : String), x ∈ st.2.1 →
      x ∈ (frontier.foldl (processNode outN inN) st).2.1 := by
  induction frontier with
  | nil => intro st x hx; exact hx
  | cons node frontier ih =>
    intro st x hx
    rw [List.foldl_cons]
    exact ih _ x (processNode_mem outN inN st node x hx)

theorem bfsLoop_mem (outN inN : String → List String) (n : Nat) :
    ∀ (lst : List String × List String × List String) (x : String),
      x ∈ lst.2.2 → x ∈ (bfsLoop outN inN n lst).2.2 := by
  induction n with
  | zero => intro lst x hx; exact hx
  | succ d ih =>
    intro lst x hx
    obtain ⟨f, v, sn⟩ := lst
    by_cases he : f.isEmpty
    · simp only [bfsLoop, he, if_pos]
      exact hx
    · simp only [bfsLoop, he]
      rw [if_neg (by simp [he])]
      exact ih _ x (foldl_process_mem outN inN f (v, sn, []) x hx)

theorem bfsLoop_nil_frontier (outN inN : String → List String) (n : Nat) :
    ∀ (v sn : List String), bfsLoop outN inN n ([], v, sn) = ([], v, sn) := by
  induction n with
  | zero => intro v sn; rfl
  | succ d _ => intro v sn; rfl

theorem bfsLoop_add (outN inN : String → List String) (a : Nat) :
    ∀ (b : Nat) (lst : List String × List String × List String),
      bfsLoop outN inN (a + b) lst = bfsLoop outN inN b (bfsLoop outN inN a lst) := by
  induction a with
  | zero => intro b lst; rw [Nat.zero_add]; rfl
  | succ k ih =>
    intro b lst
    obtain ⟨f, v, sn⟩ := lst
    by_cases he : f.isEmpty
    · have hf : f = [] := by
        cases f with
        | nil => rfl
        | cons a l => simp at he
      subst hf
      rw [bfsLoop_nil_frontier, bfsLoop_nil_frontier, bfsLoop_nil_frontier]
    · have hsucc : k + 1 + b = (k + b) + 1 := by omega
      rw [hsucc]
      have hstep : ∀ m, bfsLoop outN inN (m + 1) (f, v, sn) =
          bfsLoop outN inN m
            (let r := f.foldl (processNode outN inN) (v, sn, []); (r.2.2, r.1, r.2.1)) := by
        intro m
        simp only [bfsLoop, he]
        rw [if_neg (by simp [he])]
      rw [hstep (k + b), hstep k, ih]

theorem bfsNodes_mono (outN inN : String → List String) (entries : List String)
    (d1 d2 : Nat) (h : d1 ≤ d2) (x : String) (hx : x ∈ bfsNodes outN inN entries d1) :
    x ∈ bfsNodes outN inN entries d2 := by
  unfold bfsNodes at hx ⊢
  simp only [] at hx ⊢
  have hd : d2 = d1 + (d2 - d1) := by omega
  rw [hd, bfsLoop_add]
  exact bfsLoop_mem outN inN (d2 - d1) _ x hx

/-- C6: the node set of the traversal result is monotone in the depth bound:
for `d1 < d2`, every node of `traverse_subgraph kg entries d1` is a node of
`traverse_subgraph kg entries d2`. -/
theorem traverse_monotone (kg : KG) (entry_nodes : List String) (d1 d2 : Nat)
    (h : d1 < d2) :
    ∀ i, (traverse_subgraph kg entry_nodes d1).hasNode i = true →
      (traverse_subgraph kg entry_nodes d2).hasNode i = true := by
  intro i hi
  unfold traverse_subgraph at hi ⊢
  by_cases he : entry_nodes.isEmpty
  · rw [if_pos he] at hi
    simp [KG.hasNode] at hi
  · rw [if_neg he] at hi ⊢
    obtain ⟨p, hp, hpi⟩ := (hasNode_iff _ i).mp hi
    obtain ⟨hpkg, hpc⟩ := List.mem_filter.mp hp
    refine (hasNode_iff _ i).mpr ⟨p, List.mem_filter.mpr ⟨hpkg, ?_⟩, hpi⟩
    exact List.elem_iff.mpr
      (bfsNodes_mono _ _ entry_nodes d1 d2 (Nat.le_of_lt h) p.1 (List.elem_iff.mp hpc))

/-- Witness for C6 at a concrete graph and depths 0 < 1. -/
theorem traverse_monotone_witness :
    (traverse_subgraph
        ⟨[("a", ⟨some "T", some "A", some "a", some []⟩),
          ("b", ⟨some "T", some "B", some "b", some []⟩)],
         [⟨"a", "b", 0, ⟨"rel", "ev", 1, []⟩⟩]⟩ ["a"] 1).hasNode "a" = true :=
  traverse_monotone
    ⟨[("a", ⟨some "T", some "A", some "a", some []⟩),
      ("b", ⟨some "T", some "B", some "b", some []⟩)],
     [⟨"a", "b", 0, ⟨"rel", "ev", 1, []⟩⟩]⟩ ["a"] 0 1 (by decide) "a" (by decide)

theorem foldl_insertSet_mem (l : List String) :
    ∀ (acc : List String) (x : String), x ∈ l.foldl insertSet acc ↔ x ∈ acc ∨ x ∈ l := by
  induction l with
  | nil => intro acc x; simp
  | cons a l ih =>
    intro acc x
    rw [List.foldl_cons, ih, insertSet_mem]
    simp [or_assoc]

theorem contains_eq_of_mem_iff {A B : List String} (h : ∀ x, x ∈ A ↔ x ∈ B) (x : String) :
    A.contains x = B.contains x := by
  cases hA : A.contains x with
  | false =>
    cases hB : B.contains x with
    | false => rfl
    | true =>
      have hcontr : A.contains x = true := List.elem_iff.mpr ((h x).mpr (List.elem_iff.mp hB))
      rw [hA] at hcontr
      exact absurd hcontr (by decide)
  | true => exact (List.elem_iff.mpr ((h x).mp (List.elem_iff.mp hA))).symm

/-- C7: with depth bound 0, traversal of a non-empty set `N` of existing
nodes returns exactly the nodes of `N` and exactly the edges of `kg` whose
both endpoints lie in `N` — no expansion step is performed. -/
theorem traverse_depth_zero (kg : KG) (N : List String) (hne : N ≠ [])
    (hmem : ∀ i ∈ N, kg.hasNode i = true) :
    (∀ i, (traverse_subgraph kg N 0).hasNode i = true ↔ i ∈ N) ∧
    (traverse_subgraph kg N 0).edges =
      kg.edges.filter (fun e => N.contains e.u && N.contains e.v) := by
  have hEm : ¬ N.isEmpty = true := by
    cases N with
    | nil => exact absurd rfl hne
    | cons a l => simp
  have hbfs : bfsNodes kg.outNeighbors kg.inNeighbors N 0 = N.foldl insertSet [] := rfl
  have hmemiff : ∀ x, x ∈ bfsNodes kg.outNeighbors kg.inNeighbors N 0 ↔ x ∈ N := by
    intro x
    rw [hbfs, foldl_insertSet_mem]
    simp
  constructor
  · intro i
    unfold traverse_subgraph
    rw [if_neg hEm]
    constructor
    · intro hi
      obtain ⟨p, hp, hpi⟩ := (hasNode_iff _ i).mp hi
      obtain ⟨_, hpc⟩ := List.mem_filter.mp hp
      exact hpi ▸ (hmemiff p.1).mp (List.elem_iff.mp hpc)
    · intro hi
      obtain ⟨p, hp, hpi⟩ := (hasNode_iff kg i).mp (hmem i hi)
      refine (hasNode_iff _ i).mpr ⟨p, List.mem_filter.mpr ⟨hp, ?_⟩, hpi⟩
      exact List.elem_iff.mpr ((hmemiff p.1).mpr (hpi ▸ hi))
  · unfold traverse_subgraph
    rw [if_neg hEm]
    show (kg.edges.filter _) = kg.edges.filter _
    apply List.filter_congr
    intro e _
    rw [contains_eq_of_mem_iff hmemiff e.u, contains_eq_of_mem_iff hmemiff e.v]

/-- Witness for C7 at a concrete graph and entry set. -/
theorem traverse_depth_zero_witness :
    (traverse_subgraph
        ⟨[("a", ⟨some "T", some "A", some "a", some []⟩),
          ("b", ⟨some "T", some "B", some "b", some []⟩),
          ("c", ⟨some "T", some "C", some "c", some []⟩)],
         [⟨"a", "b", 0, ⟨"rel", "ev", 1, []⟩⟩, ⟨"a", "c", 0, ⟨"rel", "ev", 1, []⟩⟩]⟩
      ["a", "b"] 0).edges =
      ([⟨"a", "b", 0, ⟨"rel", "ev", 1, []⟩⟩, ⟨"a", "c", 0, ⟨"rel", "ev", 1, []⟩⟩] :
        List Edge).filter (fun e => ["a", "b"].contains e.u && ["a", "b"].contains e.v) :=
  (traverse_depth_zero
    ⟨[("a", ⟨some "T", some "A", some "a", some []⟩),
      ("b", ⟨some "T", some "B", some "b", some []⟩),
      ("c", ⟨some "T", some "C", some "c", some []⟩)],
     [⟨"a", "b", 0, ⟨"rel", "ev", 1, []⟩⟩, ⟨"a", "c", 0, ⟨"rel", "ev", 1, []⟩⟩]⟩
    ["a", "b"] (by decide) (by decide)).2

theorem identify_entry_nodes_nil (kg : KG) (tokens : List String)
    (h : ∀ p ∈ kg.nodes, nodeMatchesTokens tokens p.2 = false) :
    identify_entry_nodes kg tokens = [] := by
  unfold identify_entry_nodes
  have hgen : ∀ (l : List (String × NodeAttrs)) (acc : List String),
      (∀ p ∈ l, nodeMatchesTokens tokens p.2 = false) →
      l.foldl (fun acc p => if nodeMatchesTokens tokens p.2 then acc ++ [p.1] else acc) acc
        = acc := by
    intro l
    induction l with
    | nil => intro acc _; rfl
    | cons p rest ih =>
      intro acc hall
      rw [List.foldl_cons, if_neg (by rw [hall p (List.mem_cons_self p rest)]; simp)]
      exact ih acc (fun q hq => hall q (List.mem_cons_of_mem p hq))
  exact hgen kg.nodes [] h

/-- C8: when no token of the question matches any node, the pipeline
returns exactly the fixed no-knowledge result with empty citations, and
(per the control-flow mirror `answerPipelineStages`) neither the traversal
step nor the synthesis step is reached. -/
theorem answer_question_no_entry (question : String) (kg : KG) (d : Nat)
    (h : ∀ p ∈ kg.nodes, nodeMatchesTokens (simple_tokenise question) p.2 = false) :
    answer_question_from_kg question (some kg) d =
      ⟨"No relevant information found in KG.", []⟩ ∧
    answerPipelineStages question (some kg) = (false, false) := by
  have hids := identify_entry_nodes_nil kg (simple_tokenise question) h
  constructor
  · unfold answer_question_from_kg
    simp [hids]
  · unfold answerPipelineStages
    simp [hids]

/-- Witness for C8: the spec scenario question against a graph whose only
node matches none of its tokens. -/
theorem answer_question_no_entry_witness :
    answer_question_from_kg "What genes are related to diabetes?"
        (some ⟨[("CHEMICAL:aspirin",
          ⟨some "CHEMICAL", some "Aspirin", some "aspirin", some []⟩)], []⟩) 1 =
      ⟨"No relevant information found in KG.", []⟩ :=
  (answer_question_no_entry "What genes are related to diabetes?"
    ⟨[("CHEMICAL:aspirin", ⟨some "CHEMICAL", some "Aspirin", some "aspirin", some []⟩)], []⟩
    1 (by decide)).1

/-- C9, counterexample: the sub-graph returned by `traverse_subgraph` is a
shallow copy — its node records still reference the same `sources` list
objects as the source graph.  Appending a SourceRef to the node's sources
list *through the sub-graph* changes what the *source* graph's node reads:
before the append the source graph's node has `[]`, afterwards it has the
appended ref, so mutating the sub-graph does not leave the source graph
unchanged. -/
theorem traverse_copy_mutation_visible :
    readNodeSources [[]] ⟨[("DISEASE:d", ⟨"DISEASE", "Diabetes", 0⟩)], []⟩ "DISEASE:d"
      = [] ∧
    readNodeSources
        (appendNodeSource [[]]
          (traverse_subgraph_rt [[]] ⟨[("DISEASE:d", ⟨"DISEASE", "Diabetes", 0⟩)], []⟩
            ["DISEASE:d"] 0).2
          "DISEASE:d" ⟨"PMID1", "abstract", none, none, "2024"⟩)
        ⟨[("DISEASE:d", ⟨"DISEASE", "Diabetes", 0⟩)], []⟩ "DISEASE:d"
      = [⟨"PMID1", "abstract", none, none, "2024"⟩] := by
  constructor <;> decide

theorem rlookup_of_mem_nodup (g : RGraph) (hnd : (g.nodes.map Prod.fst).Nodup)
    (i : String) (a : RNodeData) (hmem : (i, a) ∈ g.nodes) :
    g.lookupNode i = some a := by
  unfold RGraph.lookupNode
  have hgen : ∀ (l : List (String × RNodeData)), (l.map Prod.fst).Nodup →
      (i, a) ∈ l → l.find? (fun p => p.1 == i) = some (i, a) := by
    intro l
    induction l with
    | nil => intro _ hm; simp at hm
    | cons p rest ih =>
      intro hnd hm
      rcases List.mem_cons.mp hm with heq | hm'
      · rw [← heq]
        rw [List.find?_cons_of_pos _ (by simp)]
      · have hne : (p.1 == i) = false := by
          cases hb : (p.1 == i) with
          | false => rfl
          | true =>
            have hpi : p.1 = i := by simpa using hb
            have hmapmem : p.1 ∈ rest.map Prod.fst := by
              rw [hpi]
              exact List.mem_map_of_mem Prod.fst hm'
            exact absurd hmapmem (List.nodup_cons.mp hnd).1
        rw [List.find?_cons]
        simp only [hne]
        exact ih (List.nodup_cons.mp hnd).2 hm'
  rw [hgen g.nodes hnd hmem]
  rfl

/-- C9, amended: `traverse_subgraph` itself never mutates the store of
sources lists (it only reads while copying), and the returned sub-graph's
node records — including their `sourcesRef` addresses — are exactly the
source graph's records; consequently the copy is shallow, and appending a
SourceRef to a node's sources list through the sub-graph is visible when
the *source* graph reads that node's sources (the claim's independence
under mutation fails, see the counterexample). -/
theorem traverse_copy_shares_sources (store : Store) (kg : RGraph)
    (en : List String) (d : Nat) (hnd : (kg.nodes.map Prod.fst).Nodup) :
    (traverse_subgraph_rt store kg en d).1 = store ∧
    (∀ i a, ((traverse_subgraph_rt store kg en d).2).lookupNode i = some a →
      kg.lookupNode i = some a) ∧
    (∀ i a s, kg.lookupNode i = some a →
      ((traverse_subgraph_rt store kg en d).2).lookupNode i = some a →
      a.sourcesRef < store.length →
      readNodeSources (appendNodeSource store (traverse_subgraph_rt store kg en d).2 i s)
        kg i = readNodeSources store kg i ++ [s]) := by
  refine ⟨?_, ?_, ?_⟩
  · unfold traverse_subgraph_rt
    split <;> rfl
  · intro i a hsub
    by_cases he : en.isEmpty
    · rw [traverse_subgraph_rt, if_pos he] at hsub
      simp [RGraph.lookupNode] at hsub
    · rw [traverse_subgraph_rt, if_neg he] at hsub
      unfold RGraph.lookupNode RGraph.inducedSubgraph at hsub
      cases hf : ((kg.nodes.filter
          (fun p => (bfsNodes kg.outNeighbors kg.inNeighbors en d).contains p.1)).find?
            (fun p => p.1 == i)) with
      | none => rw [hf] at hsub; simp at hsub
      | some pr =>
        rw [hf] at hsub
        have hpr2 : pr.2 = a := by simpa using hsub
        have hmemf := List.mem_of_find?_eq_some hf
        have hmem := List.mem_of_mem_filter hmemf
        have hpi : pr.1 = i := by
          have := List.find?_some hf
          simpa using this
        refine rlookup_of_mem_nodup kg hnd i a ?_
        have : pr = (i, a) := by
          rw [← hpi, ← hpr2]
        exact this ▸ hmem
  · intro i a s hkg hsub hlt
    have happ : appendNodeSource store (traverse_subgraph_rt store kg en d).2 i s =
        store.set a.sourcesRef (store.getD a.sourcesRef [] ++ [s]) := by
      unfold appendNodeSource
      rw [hsub]
    rw [happ]
    unfold readNodeSources
    rw [hkg]
    simp only []
    simp [List.getD, List.getElem?_set_self, hlt]

/-- Witness for the amended C9 at a concrete store and graph. -/
theorem traverse_copy_shares_sources_witness :
    readNodeSources
        (appendNodeSource [[]]
          (traverse_subgraph_rt [[]] ⟨[("a", ⟨"T", "A", 0⟩)], []⟩ ["a"] 0).2
          "a" ⟨"P", "s", none, none, "t"⟩)
        ⟨[("a", ⟨"T", "A", 0⟩)], []⟩ "a" =
      readNodeSources [[]] ⟨[("a", ⟨"T", "A", 0⟩)], []⟩ "a" ++ [⟨"P", "s", none, none, "t"⟩] :=
  (traverse_copy_shares_sources [[]] ⟨[("a", ⟨"T", "A", 0⟩)], []⟩ ["a"] 0 (by decide)).2.2
    "a" ⟨"T", "A", 0⟩ ⟨"P", "s", none, none, "t"⟩ (by decide) (by decide) (by decide)

theorem foldl_appendIf_mem {α : Type} (f : α → Bool) (g : α → String) (l : List α) :
    ∀ (acc : List String) (i : String),
      i ∈ l.foldl (fun acc x => if f x then acc ++ [g x] else acc) acc ↔
        i ∈ acc ∨ ∃ x ∈ l, g x = i ∧ f x = true := by
  induction l with
  | nil => intro acc i; simp
  | cons x rest ih =>
    intro acc i
    rw [List.foldl_cons]
    by_cases h : f x = true
    · rw [if_pos h, ih]
      constructor
      · rintro (hacc | ⟨q, hq, hqi, hqm⟩)
        · rcases List.mem_append.mp hacc with h1 | h2
          · exact Or.inl h1
          · exact Or.inr ⟨x, List.mem_cons_self x rest, (List.mem_singleton.mp h2).symm, h⟩
        · exact Or.inr ⟨q, List.mem_cons_of_mem x hq, hqi, hqm⟩
      · rintro (hacc | ⟨q, hq, hqi, hqm⟩)
        · exact Or.inl (List.mem_append_left _ hacc)
        · rcases List.mem_cons.mp hq with rfl | hq'
          · exact Or.inl (List.mem_append_right _ (List.mem_singleton.mpr hqi.symm))
          · exact Or.inr ⟨q, hq', hqi, hqm⟩
    · rw [if_neg h, ih]
      constructor
      · rintro (hacc | ⟨q, hq, hqi, hqm⟩)
        · exact Or.inl hacc
        · exact Or.inr ⟨q, List.mem_cons_of_mem x hq, hqi, hqm⟩
      · rintro (hacc | ⟨q, hq, hqi, hqm⟩)
        · exact Or.inl hacc
        · rcases List.mem_cons.mp hq with rfl | hq'
          · exact absurd hqm h
          · exact Or.inr ⟨q, hq', hqi, hqm⟩

theorem identify_mem_iff (kg : KG) (tokens : List String) (i : String) :
    i ∈ identify_entry_nodes kg tokens ↔
      ∃ p ∈ kg.nodes, p.1 = i ∧ nodeMatchesTokens tokens p.2 = true := by
  unfold identify_entry_nodes
  rw [foldl_appendIf_mem (fun p => nodeMatchesTokens tokens p.2) Prod.fst kg.nodes]
  simp

theorem query_none_eq_fold (kg : KG) (needle : String) :
    query_kg_by_entity kg needle none =
      kg.nodes.foldl
        (fun acc p =>
          if (strContains (pyLower (p.2.text.getD "")) (pyLower needle) ||
              strContains (pyLower (p.2.normalized_text.getD "")) (pyLower needle)) then
            acc ++ [p.1]
          else acc) [] := rfl

theorem query_none_mem_iff (kg : KG) (needle : String) (i : String) :
    i ∈ query_kg_by_entity kg needle none ↔
      ∃ p ∈ kg.nodes, p.1 = i ∧
        (strContains (pyLower (p.2.text.getD "")) (pyLower needle) ||
         strContains (pyLower (p.2.normalized_text.getD "")) (pyLower needle)) = true := by
  rw [query_none_eq_fold]
  rw [foldl_appendIf_mem
    (fun p => strContains (pyLower (p.2.text.getD "")) (pyLower needle) ||
      strContains (pyLower (p.2.normalized_text.getD "")) (pyLower needle))
    Prod.fst kg.nodes]
  simp

theorem listContainsSub_nil (hay : List Char) : listContainsSub [] hay = true := by
  cases hay <;> simp [listContainsSub, List.isPrefixOf]

theorem strContains_or_empty (A z : String) :
    (strContains A z || strContains "" z) = strContains A z := by
  cases hz : strContains "" z with
  | false => rw [Bool.or_false]
  | true =>
    have hzdata : z.data = [] := by
      have hze : z.data.isEmpty = true := hz
      simpa using hze
    have hA : strContains A z = true := by
      unfold strContains
      rw [hzdata]
      exact listContainsSub_nil A.data
    simp [hA, hz]

theorem nodeSearchText_no_normalized (ty tx : String) :
    nodeSearchText ⟨some ty, some tx, none, some []⟩ = pyLower tx := rfl

theorem nodeMatches_no_normalized (tokens : List String) (ty tx : String) :
    nodeMatchesTokens tokens ⟨some ty, some tx, none, some []⟩ = true ↔
      ∃ t ∈ tokens, t ≠ "" ∧ strContains (pyLower tx) t = true := by
  unfold nodeMatchesTokens
  rw [nodeSearchText_no_normalized, List.any_eq_true]
  constructor
  · rintro ⟨t, ht, hcond⟩
    rw [Bool.and_eq_true] at hcond
    refine ⟨t, ht, ?_, hcond.2⟩
    intro hempty
    rw [hempty] at hcond
    simp only [Bool.not_eq_true'] at hcond
    exact absurd hcond.1 (by decide)
  · rintro ⟨t, ht, hne, hsub⟩
    refine ⟨t, ht, ?_⟩
    rw [Bool.and_eq_true]
    refine ⟨?_, hsub⟩
    cases hb : t.isEmpty with
    | false => rfl
    | true => exact absurd ((String.isEmpty_iff t).mp hb) hne

theorem find?_none_of_hasNode_false (kg : KG) (i : String) (h : kg.hasNode i = false) :
    kg.nodes.find? (fun p => p.1 == i) = none := by
  rw [List.find?_eq_none]
  intro p hp hbeq
  have hcontr : kg.hasNode i = true := (hasNode_iff kg i).mpr ⟨p, hp, by simpa using hbeq⟩
  rw [h] at hcontr
  exact absurd hcontr (by decide)

theorem mem_append_single_iff (l : List (String × NodeAttrs)) (oid : String) (a : NodeAttrs)
    (habs : ∀ p ∈ l, p.1 ≠ oid) (P : NodeAttrs → Bool) :
    (∃ p ∈ l ++ [(oid, a)], p.1 = oid ∧ P p.2 = true) ↔ P a = true := by
  constructor
  · rintro ⟨p, hp, hpi, hP⟩
    rcases List.mem_append.mp hp with h1 | h2
    · exact absurd hpi (habs p h1)
    · have hpa : p = (oid, a) := List.mem_singleton.mp h2
      rw [hpa] at hP
      exact hP
  · intro hP
    exact ⟨(oid, a), List.mem_append_right _ (List.mem_singleton_self _), rfl, hP⟩

theorem ensure_hasNode_other (kg : KG) (i j : String) (ep : EndpointRecord)
    (hj : kg.hasNode j = false) (hne : i ≠ j) :
    (ensureEndpointNode kg i ep).1.hasNode j = false := by
  obtain ⟨idO, tO, xO⟩ := ep
  unfold ensureEndpointNode
  by_cases hi : kg.hasNode i
  · rw [if_pos hi]
    exact hj
  · rw [if_neg hi]
    cases tO with
    | none =>
      cases xO with
      | none => exact hj
      | some x => exact hj
    | some t =>
      cases xO with
      | none => exact hj
      | some x =>
        show (KG.mk (kg.nodes ++ [(i, ⟨some t, some x, none, some []⟩)]) kg.edges).hasNode j
          = false
        rw [hasNode_append_node, hj]
        simp [hne]

/-- C10: an endpoint node freshly created by `add_relation_to_graph` has
only `type`, `text` and empty `sources` — no `normalized_text` attribute —
so `identify_entry_nodes` matches it exactly when some non-empty token is a
substring of its lowercased display `text`, and `query_kg_by_entity` matches
it exactly when the lowercased query is a substring of its lowercased
display `text`. -/
theorem relation_endpoint_node_matching (kg : KG) (subj : EndpointRecord)
    (sid oid pred ev oty otx : String) (conf : Rat) (kg3 : KG)
    (hsid : subj.id = some sid)
    (hst : subj.type.isSome = true) (hsx : subj.text.isSome = true)
    (hoabs : kg.hasNode oid = false) (hneq : sid ≠ oid)
    (hkg3 : kg3 = (add_relation_to_graph kg
      ⟨some subj, some ⟨some oid, some oty, some otx⟩, some pred, some ev, some conf⟩).1) :
    kg3.lookupNode oid = some ⟨some oty, some otx, none, some []⟩ ∧
    (∀ tokens, oid ∈ identify_entry_nodes kg3 tokens ↔
      ∃ t ∈ tokens, t ≠ "" ∧ strContains (pyLower otx) t = true) ∧
    (∀ needle, oid ∈ query_kg_by_entity kg3 needle none ↔
      strContains (pyLower otx) (pyLower needle) = true) := by
  have h1 : ensureEndpointNode kg sid subj = ((ensureEndpointNode kg sid subj).1, .ok ()) :=
    Prod.ext rfl (ensure_endpoint_ok kg sid subj hst hsx)
  have hkg1oid : (ensureEndpointNode kg sid subj).1.hasNode oid = false :=
    ensure_hasNode_other kg sid oid subj hoabs hneq
  have h2gen : ∀ (kgx : KG), kgx.hasNode oid = false →
      ensureEndpointNode kgx oid ⟨some oid, some oty, some otx⟩ =
        (⟨kgx.nodes ++ [(oid, ⟨some oty, some otx, none, some []⟩)], kgx.edges⟩, .ok ()) := by
    intro kgx hx
    unfold ensureEndpointNode
    rw [if_neg (by rw [hx]; exact Bool.false_ne_true)]
  have hnodes : kg3.nodes = (ensureEndpointNode kg sid subj).1.nodes ++
      [(oid, ⟨some oty, some otx, none, some []⟩)] := by
    rw [hkg3]
    unfold add_relation_to_graph
    simp only [dictGet, Bind.bind, Except.bind, Pure.pure, Except.pure, hsid]
    rw [h1]
    dsimp only []
    rw [h2gen _ hkg1oid]
  have habs : ∀ p ∈ (ensureEndpointNode kg sid subj).1.nodes, p.1 ≠ oid := by
    intro p hp hpi
    have hcontr : (ensureEndpointNode kg sid subj).1.hasNode oid = true :=
      (hasNode_iff _ _).mpr ⟨p, hp, hpi⟩
    rw [hkg1oid] at hcontr
    exact absurd hcontr (by decide)
  refine ⟨?_, ?_, ?_⟩
  · unfold KG.lookupNode
    rw [hnodes, List.find?_append,
      find?_none_of_hasNode_false (ensureEndpointNode kg sid subj).1 oid hkg1oid]
    simp
  · intro tokens
    rw [identify_mem_iff, hnodes,
      mem_append_single_iff (ensureEndpointNode kg sid subj).1.nodes oid
        ⟨some oty, some otx, none, some []⟩ habs (fun d => nodeMatchesTokens tokens d),
      nodeMatches_no_normalized]
  · intro needle
    rw [query_none_mem_iff, hnodes,
      mem_append_single_iff (ensureEndpointNode kg sid subj).1.nodes oid
        ⟨some oty, some otx, none, some []⟩ habs
        (fun d => strContains (pyLower (d.text.getD "")) (pyLower needle) ||
          strContains (pyLower (d.normalized_text.getD "")) (pyLower needle))]
    show (strContains (pyLower otx) (pyLower needle) ||
        strContains (pyLower "") (pyLower needle)) = true ↔ _
    rw [show pyLower "" = "" from rfl, strContains_or_empty]

/-- Witness for C10 at a concrete relation upsert into an empty graph. -/
theorem relation_endpoint_node_matching_witness :
    (KG.mk [("s", ⟨some "T", some "S", none, some []⟩),
            ("o", ⟨some "OT", some "Obj Text", none, some []⟩)]
        [⟨"s", "o", 0, ⟨"p", "e", 1, []⟩⟩]).lookupNode "o" =
      some ⟨some "OT", some "Obj Text", none, some []⟩ :=
  (relation_endpoint_node_matching ⟨[], []⟩ ⟨some "s", some "T", some "S"⟩
    "s" "o" "p" "e" "OT" "Obj Text" 1
    (KG.mk [("s", ⟨some "T", some "S", none, some []⟩),
            ("o", ⟨some "OT", some "Obj Text", none, some []⟩)]
        [⟨"s", "o", 0, ⟨"p", "e", 1, []⟩⟩])
    rfl rfl rfl rfl (by decide) (by decide)).1
